import Mathlib

/-!
Verification of the exact-rational matrix core (`gauss_bot/clases/matriz.py`).

The Python class `Matriz` stores an `aumentada` flag, the intended dimensions
`filas`/`columnas`, and a list of rows of `Fraction` values.  We embed it
shallowly: `Fraction` becomes `ℚ`, the list-of-lists becomes `List (List ℚ)`,
and any operation that can raise a Python exception returns `Except PyErr`.
Python list indexing `l[i]` raises `IndexError` outside `[-len, len)` and
wraps negative indices; the helpers `pyIdx` / `pyIdxInt` reproduce exactly
that behaviour.
-/

/-- The Python exceptions the embedded methods can raise: `IndexError`,
`ValueError` (from `max` on an empty sequence), `ArithmeticError` (the
dimension mismatch the spec calls `DimensionError`), `TypeError`, and
`ZeroDivisionError` (from `Fraction` division by zero). -/
inductive PyErr where
  | index
  | value
  | dimension
  | tipo
  | zeroDiv
deriving DecidableEq

/-- The `Matriz` class: augmented flag, row/column counts, and the stored
grid of exact rationals (`self._valores`). -/
structure Matriz where
  aumentada : Bool
  filas : Nat
  columnas : Nat
  valores : List (List ℚ)
deriving DecidableEq

/-- A `Matriz` satisfies the data-model invariant of spec §3: `valores` has
exactly `filas` rows, each of exactly `columnas` entries. -/
def Matriz.wf (m : Matriz) : Prop :=
  m.valores.length = m.filas ∧ ∀ fila ∈ m.valores, fila.length = m.columnas

instance (m : Matriz) : Decidable m.wf := by
  unfold Matriz.wf; infer_instance

/-- Python `l[i]` for a nonnegative index `i`: the element, or `IndexError`
when `i ≥ len(l)`. -/
def pyIdx {α : Type} (l : List α) (i : Nat) : Except PyErr α :=
  match l.get? i with
  | some x => .ok x
  | none => .error .index

/-- Python `vals[i][j]` for nonnegative indices. -/
def pyIdx2 (vals : List (List ℚ)) (i j : Nat) : Except PyErr ℚ := do
  let fila ← pyIdx vals i
  pyIdx fila j

/-- Python `vals[i][j] = v` for nonnegative indices: returns the updated
grid, or `IndexError`. -/
def pySet2 (vals : List (List ℚ)) (i j : Nat) (v : ℚ) : Except PyErr (List (List ℚ)) := do
  let fila ← pyIdx vals i
  if j < fila.length then .ok (vals.set i (fila.set j v)) else .error .index

/-- CPython's index adjustment for a sequence of length `n`: a negative
index is first shifted by `+ n`. -/
def pyAjuste (n : Nat) (i : Int) : Int :=
  if i < 0 then i + n else i

/-- Python `l[i]` for an `int` index: a negative index wraps by `+ len(l)`;
an index that is still out of `[0, len)` raises `IndexError`. -/
def pyIdxInt {α : Type} (l : List α) (i : Int) : Except PyErr α :=
  if pyAjuste l.length i < 0 then .error .index
  else pyIdx l (pyAjuste l.length i).toNat

/-- Python `l[i] = v` for an `int` index, with the same wrapping rule. -/
def pySetInt {α : Type} (l : List α) (i : Int) (v : α) : Except PyErr (List α) :=
  if pyAjuste l.length i < 0 then .error .index
  else if (pyAjuste l.length i).toNat < l.length then .ok (l.set (pyAjuste l.length i).toNat v)
  else .error .index

/-- Total view of an entry of the grid, used only to state properties:
`entrada vals r c` is `vals[r][c]` with default `0` out of range. -/
def entrada (vals : List (List ℚ)) (r c : Nat) : ℚ :=
  (vals.getD r []).getD c 0

/-- `__getitem__` with an `int` index (row access): explicit bounds check
`indice < 0 or indice >= self.filas` raising `IndexError`, then
`self.valores[indice]`. -/
def Matriz.getFila (m : Matriz) (indice : Int) : Except PyErr (List ℚ) :=
  if indice < 0 ∨ (m.filas : Int) ≤ indice then .error .index
  else pyIdx m.valores indice.toNat

/-- `__getitem__` with a tuple index: checks only `fila >= self.filas or
columna >= self.columnas`, then evaluates `self.valores[fila][columna]`
with Python list-index semantics (negative indices wrap). -/
def Matriz.getValor (m : Matriz) (fila columna : Int) : Except PyErr ℚ :=
  if (m.filas : Int) ≤ fila ∨ (m.columnas : Int) ≤ columna then .error .index
  else do
    let f ← pyIdxInt m.valores fila
    pyIdxInt f columna

/-- `__setitem__`: checks `fila < 0 or columna < 0 or fila >= self.filas or
columna >= self.columnas`, then performs `self.valores[fila][columna] = valor`. -/
def Matriz.setValor (m : Matriz) (fila columna : Int) (valor : ℚ) : Except PyErr Matriz :=
  if fila < 0 ∨ columna < 0 ∨ (m.filas : Int) ≤ fila ∨ (m.columnas : Int) ≤ columna then
    .error .index
  else do
    let f ← pyIdxInt m.valores fila
    let f2 ← pySetInt f columna valor
    .ok ⟨m.aumentada, m.filas, m.columnas, m.valores.set fila.toNat f2⟩

/-- The body of `__eq__` once both operands are known to be `Matriz`:
dimension fields must match, then `all` over `zip`ped rows and `zip`ped
entries (Python `zip` truncates to the shorter operand). -/
def Matriz.eq (a b : Matriz) : Bool :=
  if a.filas ≠ b.filas ∨ a.columnas ≠ b.columnas then false
  else (a.valores.zip b.valores).all (fun p => (p.1.zip p.2).all (fun q => q.1 == q.2))

/-- An arbitrary Python object handed to `__eq__`: either a `Matriz` or
some non-`Matriz` value (summarised by a description string, since
`isinstance` looks only at the type). -/
inductive ObjetoPy where
  | matriz (m : Matriz)
  | otro (descripcion : String)

/-- `__eq__` in full: the `isinstance` guard returns `False` for any
non-`Matriz` operand, otherwise compares as `Matriz.eq`. -/
def Matriz.eqObjeto (a : Matriz) : ObjetoPy → Bool
  | .matriz b => a.eq b
  | .otro _ => false

/-- `__add__`: `ArithmeticError` unless both dimension fields agree, else
the element-wise sum over `zip`ped rows, inheriting `self.aumentada`. -/
def Matriz.add (a b : Matriz) : Except PyErr Matriz :=
  if a.filas ≠ b.filas ∨ a.columnas ≠ b.columnas then .error .dimension
  else .ok ⟨a.aumentada, a.filas, a.columnas,
    (a.valores.zip b.valores).map (fun p => (p.1.zip p.2).map (fun q => q.1 + q.2))⟩

/-- `__sub__`: same contract as `__add__` with element-wise difference. -/
def Matriz.sub (a b : Matriz) : Except PyErr Matriz :=
  if a.filas ≠ b.filas ∨ a.columnas ≠ b.columnas then .error .dimension
  else .ok ⟨a.aumentada, a.filas, a.columnas,
    (a.valores.zip b.valores).map (fun p => (p.1.zip p.2).map (fun q => q.1 - q.2))⟩

/-- Sequencing of a Python comprehension that can raise: evaluate `f` on
each element in order, stopping at the first exception. -/
def mapE {α β : Type} (f : α → Except PyErr β) : List α → Except PyErr (List β)
  | [] => .ok []
  | x :: xs => do
    let y ← f x
    let ys ← mapE f xs
    .ok (y :: ys)

/-- Sequencing of a Python `for` loop threading a state that can raise. -/
def foldE {σ α : Type} (f : σ → α → Except PyErr σ) (s : σ) : List α → Except PyErr σ
  | [] => .ok s
  | x :: xs => do
    let s2 ← f s x
    foldE f s2 xs

/-- `es_matriz_cero`: all stored values are `0`. -/
def Matriz.esMatrizCero (m : Matriz) : Bool :=
  m.valores.all (fun fila => fila.all (fun x => x == 0))

/-- `es_cuadrada`: `self.filas == self.columnas`. -/
def Matriz.esCuadrada (m : Matriz) : Bool :=
  m.filas == m.columnas

/-- The generator `all(self.valores[i][i] == Fraction(1) for i in range(self.filas))`:
short-circuits at the first diagonal entry that is not `1`, and raises
`IndexError` as soon as `valores[i][i]` is out of range. -/
def allDiagUnos (vals : List (List ℚ)) : List Nat → Except PyErr Bool
  | [] => .ok true
  | i :: rest => do
    let v ← pyIdx2 vals i i
    if v = 1 then allDiagUnos vals rest else .ok false

/-- The generator `all(self.valores[i][j] == Fraction(0) for i ... for j ... if i != j)`
over an explicit list of index pairs, with the same short-circuiting. -/
def allRestoCeros (vals : List (List ℚ)) : List (Nat × Nat) → Except PyErr Bool
  | [] => .ok true
  | p :: rest => do
    let v ← pyIdx2 vals p.1 p.2
    if v = 0 then allRestoCeros vals rest else .ok false

/-- The off-diagonal index pairs `(i, j)` for `i in range(filas)`,
`j in range(columnas)`, `i != j`, in Python generator order. -/
def paresNoDiag (filas columnas : Nat) : List (Nat × Nat) :=
  (List.range filas).flatMap
    (fun i => ((List.range columnas).filter (fun j => i ≠ j)).map (fun j => (i, j)))

/-- `es_identidad`: evaluates `diagonales_son_1` (which may raise), then
`resto_son_cero`, then returns `es_cuadrada() and diagonales and resto`. -/
def Matriz.esIdentidad (m : Matriz) : Except PyErr Bool := do
  let diagonales ← allDiagUnos m.valores (List.range m.filas)
  let resto ← allRestoCeros m.valores (paresNoDiag m.filas m.columnas)
  .ok (m.esCuadrada && diagonales && resto)

/-- `transponer`: the comprehension
`[[self.valores[j][i] for j in range(self.filas)] for i in range(self.columnas)]`
packed into a new `columnas × filas` matrix with the same `aumentada` flag. -/
def Matriz.transponer (m : Matriz) : Except PyErr Matriz := do
  let vt ← mapE (fun i => mapE (fun j => pyIdx2 m.valores j i) (List.range m.filas))
    (List.range m.columnas)
  .ok ⟨m.aumentada, m.columnas, m.filas, vt⟩

/-- The matrix branch of `__mul__`: `ArithmeticError` unless
`self.columnas == multiplicador.filas`, else the triple loop accumulating
`mat_multiplicada[i][j] += self.valores[i][k] * multiplicador.valores[k][j]`
starting from `Fraction(0)`, packed as `a.filas × b.columnas` with
`self.aumentada`. -/
def Matriz.mulMatriz (a b : Matriz) : Except PyErr Matriz :=
  if a.columnas ≠ b.filas then .error .dimension
  else do
    let vals ← mapE (fun i =>
      mapE (fun j =>
        foldE (fun acc k => do
          let x ← pyIdx2 a.valores i k
          let y ← pyIdx2 b.valores k j
          .ok (acc + x * y)) 0 (List.range a.columnas)) (List.range b.columnas))
      (List.range a.filas)
    .ok ⟨a.aumentada, a.filas, b.columnas, vals⟩

/-- One comparison round of Python
`max(range(i, filas), key=lambda j: abs(mat[j][i]))`: keep the current best
(the first maximum wins ties), raising `IndexError` where the key does. -/
def pivotMaxGo (vals : List (List ℚ)) (col : Nat) (best : Nat) (bestAbs : ℚ) :
    List Nat → Except PyErr Nat
  | [] => .ok best
  | j :: rest => do
    let v ← pyIdx2 vals j col
    if bestAbs < |v| then pivotMaxGo vals col j |v| rest
    else pivotMaxGo vals col best bestAbs rest

/-- Python `max(cands, key=lambda j: abs(mat[j][col]))`: `ValueError` on an
empty candidate list. -/
def pivotMax (vals : List (List ℚ)) (col : Nat) : List Nat → Except PyErr Nat
  | [] => .error .value
  | j :: rest => do
    let v ← pyIdx2 vals j col
    pivotMaxGo vals col j |v| rest

/-- The tuple swap `mat[i], mat[f] = mat[f], mat[i]`: both reads happen
first, then the two writes. -/
def swapFilas (vals : List (List ℚ)) (i f : Nat) : Except PyErr (List (List ℚ)) := do
  let ri ← pyIdx vals i
  let rf ← pyIdx vals f
  .ok ((vals.set i rf).set f ri)

/-- One pass of the inner elimination loop:
`mat[j][k] -= factor * mat[i][k]` for one `k`. -/
def elimEntrada (i j : Nat) (factor : ℚ) (vals : List (List ℚ)) (k : Nat) :
    Except PyErr (List (List ℚ)) := do
  let vjk ← pyIdx2 vals j k
  let vik ← pyIdx2 vals i k
  pySet2 vals j k (vjk - factor * vik)

/-- The loop `for k in range(self.columnas)` eliminating row `j` against
row `i` with a fixed `factor`. -/
def elimFila (i j : Nat) (factor : ℚ) (columnas : Nat) (vals : List (List ℚ)) :
    Except PyErr (List (List ℚ)) :=
  foldE (elimEntrada i j factor) vals (List.range columnas)

/-- The body of `for j in range(i + 1, self.filas)`: compute
`factor = mat[j][i] / mat[i][i]` (`Fraction` division raises
`ZeroDivisionError` on a zero divisor) and eliminate row `j`. -/
def elimPaso (i columnas : Nat) (vals : List (List ℚ)) (j : Nat) :
    Except PyErr (List (List ℚ)) := do
  let vji ← pyIdx2 vals j i
  let vii ← pyIdx2 vals i i
  if vii = 0 then .error .zeroDiv
  else elimFila i j (vji / vii) columnas vals

/-- One iteration of the outer loop of `hacer_triangular_superior` at
column `i`: partial pivot selection, skip on a zero pivot, conditional swap
toggling `intercambio`, then elimination of the rows below. -/
def triPaso (filas columnas : Nat) (st : List (List ℚ) × Bool) (i : Nat) :
    Except PyErr (List (List ℚ) × Bool) := do
  let maxF ← pivotMax st.1 i (List.range' i (filas - i))
  let pv ← pyIdx2 st.1 maxF i
  if pv = 0 then .ok st
  else
    let vals2 ← if maxF ≠ i then swapFilas st.1 i maxF else .ok st.1
    let inter2 := if maxF ≠ i then !st.2 else st.2
    let vals3 ← foldE (fun v j => elimPaso i columnas v j) vals2
      (List.range' (i + 1) (filas - (i + 1)))
    .ok (vals3, inter2)

/-- `hacer_triangular_superior`: deep-copies the grid, runs the elimination
loop for `i in range(self.filas)`, and returns the new `Matriz` together
with the swap flag `intercambio` (initially `False`). -/
def Matriz.hacerTriangularSuperior (m : Matriz) : Except PyErr (Matriz × Bool) := do
  let st ← foldE (triPaso m.filas m.columnas) (m.valores, false) (List.range m.filas)
  .ok (⟨m.aumentada, m.filas, m.columnas, st.1⟩, st.2)

/-- Modelled from the spec (§8: "the returned swap-parity must match the
number of row interchanges performed mod 2"): the same loop body as
`triPaso`, but threading the count of row interchanges instead of the
toggled flag. -/
def triPasoConteo (filas columnas : Nat) (st : List (List ℚ) × Nat) (i : Nat) :
    Except PyErr (List (List ℚ) × Nat) := do
  let maxF ← pivotMax st.1 i (List.range' i (filas - i))
  let pv ← pyIdx2 st.1 maxF i
  if pv = 0 then .ok st
  else
    let vals2 ← if maxF ≠ i then swapFilas st.1 i maxF else .ok st.1
    let n2 := if maxF ≠ i then st.2 + 1 else st.2
    let vals3 ← foldE (fun v j => elimPaso i columnas v j) vals2
      (List.range' (i + 1) (filas - (i + 1)))
    .ok (vals3, n2)

/-- Modelled from the spec: `hacer_triangular_superior` instrumented to
return the number of row interchanges performed, for the swap-parity
comparison of spec §8. -/
def Matriz.hacerTriangularSuperiorConteo (m : Matriz) : Except PyErr (Matriz × Nat) := do
  let st ← foldE (triPasoConteo m.filas m.columnas) (m.valores, 0) (List.range m.filas)
  .ok (⟨m.aumentada, m.filas, m.columnas, st.1⟩, st.2)

/-! ### Basic facts about the Python-indexing helpers -/

/-- The rectangularity invariant on a raw grid, as in spec §3. -/
def Forma (F C : Nat) (vals : List (List ℚ)) : Prop :=
  vals.length = F ∧ ∀ fila ∈ vals, fila.length = C

lemma pyIdx_ok_of_lt {α : Type} (d : α) {l : List α} {i : Nat} (h : i < l.length) :
    pyIdx l i = .ok (l.getD i d) := by
  unfold pyIdx
  rw [List.get?_eq_getElem?, List.getElem?_eq_getElem h]
  simp [List.getD_eq_getElem?_getD, List.getElem?_eq_getElem h]

lemma pyIdx_err_of_le {α : Type} {l : List α} {i : Nat} (h : l.length ≤ i) :
    pyIdx l i = .error .index := by
  unfold pyIdx
  rw [List.get?_eq_none.mpr h]

lemma getD_eq_getElem {α : Type} (d : α) {l : List α} {i : Nat} (h : i < l.length) :
    l.getD i d = l[i] := by
  simp [List.getD_eq_getElem?_getD, List.getElem?_eq_getElem h]

lemma forma_fila {F C : Nat} {vals : List (List ℚ)} (hf : Forma F C vals)
    {r : Nat} (hr : r < F) : (vals.getD r []).length = C := by
  have hlen : r < vals.length := by rw [hf.1]; exact hr
  rw [getD_eq_getElem [] hlen]
  exact hf.2 _ (vals.getElem_mem hlen)

lemma pyIdx2_ok {vals : List (List ℚ)} {r c : Nat} (hr : r < vals.length)
    (hc : c < (vals.getD r []).length) :
    pyIdx2 vals r c = .ok (entrada vals r c) := by
  unfold pyIdx2 entrada
  rw [pyIdx_ok_of_lt [] hr]
  show pyIdx (vals.getD r []) c = _
  rw [pyIdx_ok_of_lt 0 hc]

lemma pyIdx2_ok_forma {F C : Nat} {vals : List (List ℚ)} (hf : Forma F C vals)
    {r c : Nat} (hr : r < F) (hc : c < C) :
    pyIdx2 vals r c = .ok (entrada vals r c) := by
  refine pyIdx2_ok ?_ ?_
  · rw [hf.1]; exact hr
  · rw [forma_fila hf hr]; exact hc

/-! ### Claim C10 -/

/-- Claim C10: comparing a matrix for equality against a value that is not
a matrix returns `False` rather than raising; `__eq__` is a total
`Bool`-valued function over every operand pair. -/
theorem claim_c10 (a : Matriz) (s : String) : a.eqObjeto (.otro s) = false := rfl

/-! ### Claim C9: `__eq__` on two matrices -/

lemma zip_all_beq_iff : ∀ {xs ys : List ℚ}, xs.length = ys.length →
    (((xs.zip ys).all fun q => q.1 == q.2) = true ↔ xs = ys) := by
  intro xs
  induction xs with
  | nil =>
    intro ys h
    cases ys with
    | nil => simp
    | cons y ys => simp at h
  | cons x xs ih =>
    intro ys h
    cases ys with
    | nil => simp at h
    | cons y ys =>
      simp only [List.zip_cons_cons, List.all_cons, Bool.and_eq_true, beq_iff_eq,
        List.cons.injEq]
      rw [ih (by simpa using h)]

lemma zip_all_all_beq_iff {C : Nat} : ∀ {xs ys : List (List ℚ)}, xs.length = ys.length →
    (∀ x ∈ xs, x.length = C) → (∀ y ∈ ys, y.length = C) →
    (((xs.zip ys).all fun p => (p.1.zip p.2).all fun q => q.1 == q.2) = true ↔ xs = ys) := by
  intro xs
  induction xs with
  | nil =>
    intro ys h _ _
    cases ys with
    | nil => simp
    | cons y ys => simp at h
  | cons x xs ih =>
    intro ys h hx hy
    cases ys with
    | nil => simp at h
    | cons y ys =>
      simp only [List.zip_cons_cons, List.all_cons, Bool.and_eq_true, List.cons.injEq]
      rw [zip_all_beq_iff (by rw [hx x (by simp), hy y (by simp)])]
      rw [ih (by simpa using h) (fun a ha => hx a (by simp [ha])) (fun a ha => hy a (by simp [ha]))]

/-- Claim C9: two matrices compare equal iff they have the same `filas` and
`columnas` and equal stored values; the `aumentada` flag plays no role, so
two matrices differing only in that flag compare equal. -/
theorem claim_c9 (a b : Matriz) (ha : a.wf) (hb : b.wf) :
    (a.eq b = true ↔ a.filas = b.filas ∧ a.columnas = b.columnas ∧ a.valores = b.valores) ∧
    ∀ bandera : Bool, Matriz.eq ⟨bandera, a.filas, a.columnas, a.valores⟩ a = true := by
  constructor
  · unfold Matriz.eq
    by_cases hfc : a.filas ≠ b.filas ∨ a.columnas ≠ b.columnas
    · simp only [hfc, if_true]
      constructor
      · intro h; cases h
      · rintro ⟨h1, h2, -⟩
        rcases hfc with h | h <;> exact absurd (by assumption) h
    · push_neg at hfc
      simp only [hfc.1, hfc.2, ne_eq, not_true_eq_false, false_or, if_false]
      rw [zip_all_all_beq_iff (C := a.columnas)
        (by rw [ha.1, hb.1, hfc.1]) ha.2 (fun y hy => by rw [hb.2 y hy, hfc.2])]
      simp [hfc.1, hfc.2]
  · intro bandera
    unfold Matriz.eq
    simp only [ne_eq, not_true_eq_false, false_or, if_false]
    rw [zip_all_all_beq_iff (C := a.columnas) rfl ha.2 ha.2]

/-- Witness for C9 at concrete matrices: the iff and the flag-irrelevance
hold at `[[1,2],[3,4]]`. -/
theorem claim_c9_w :
    ((Matriz.eq ⟨false, 2, 2, [[1,2],[3,4]]⟩ ⟨true, 2, 2, [[1,2],[3,4]]⟩ = true ↔
      (2 : Nat) = 2 ∧ (2 : Nat) = 2 ∧ ([[(1 : ℚ),2],[3,4]] : List (List ℚ)) = [[1,2],[3,4]]) ∧
     ∀ bandera : Bool, Matriz.eq ⟨bandera, 2, 2, [[1,2],[3,4]]⟩ ⟨false, 2, 2, [[1,2],[3,4]]⟩ = true) :=
  claim_c9 ⟨false, 2, 2, [[1,2],[3,4]]⟩ ⟨true, 2, 2, [[1,2],[3,4]]⟩ (by decide) (by decide)

/-! ### Claim C8: `(A+B)-B == A` and `A+B == B+A` -/

lemma fila_add_sub_cancel : ∀ (xs ys : List ℚ),
    (((((xs.zip ys).map fun q => q.1 + q.2).zip ys).map fun q => q.1 - q.2).zip xs).all
      (fun q => q.1 == q.2) = true := by
  intro xs
  induction xs with
  | nil => intro ys; simp
  | cons x xs ih =>
    intro ys
    cases ys with
    | nil => simp
    | cons y ys =>
      simp only [List.zip_cons_cons, List.map_cons, List.all_cons, Bool.and_eq_true, beq_iff_eq]
      exact ⟨by ring, ih ys⟩

lemma mat_add_sub_cancel : ∀ (va vb : List (List ℚ)),
    (((((va.zip vb).map fun p => (p.1.zip p.2).map fun q => q.1 + q.2).zip vb).map
        fun p => (p.1.zip p.2).map fun q => q.1 - q.2).zip va).all
      (fun p => (p.1.zip p.2).all fun q => q.1 == q.2) = true := by
  intro va
  induction va with
  | nil => intro vb; simp
  | cons x va ih =>
    intro vb
    cases vb with
    | nil => simp
    | cons y vb =>
      simp only [List.zip_cons_cons, List.map_cons, List.all_cons, Bool.and_eq_true]
      exact ⟨fila_add_sub_cancel x y, ih vb⟩

lemma fila_add_comm : ∀ (xs ys : List ℚ),
    ((((xs.zip ys).map fun q => q.1 + q.2).zip ((ys.zip xs).map fun q => q.1 + q.2)).all
      fun q => q.1 == q.2) = true := by
  intro xs
  induction xs with
  | nil => intro ys; simp
  | cons x xs ih =>
    intro ys
    cases ys with
    | nil => simp
    | cons y ys =>
      simp only [List.zip_cons_cons, List.map_cons, List.all_cons, Bool.and_eq_true, beq_iff_eq]
      exact ⟨by ring, ih ys⟩

lemma mat_add_comm : ∀ (va vb : List (List ℚ)),
    ((((va.zip vb).map fun p => (p.1.zip p.2).map fun q => q.1 + q.2).zip
        ((vb.zip va).map fun p => (p.1.zip p.2).map fun q => q.1 + q.2)).all
      fun p => (p.1.zip p.2).all fun q => q.1 == q.2) = true := by
  intro va
  induction va with
  | nil => intro vb; simp
  | cons x va ih =>
    intro vb
    cases vb with
    | nil => simp
    | cons y vb =>
      simp only [List.zip_cons_cons, List.map_cons, List.all_cons, Bool.and_eq_true]
      exact ⟨fila_add_comm x y, ih vb⟩

/-- Claim C8: for all matrices with equal `filas` and `columnas` fields,
`(A + B) - B == A` and `A + B == B + A`, where `==` is the `__eq__` of the
class (exact rational comparison). -/
theorem claim_c8 (a b : Matriz) (h1 : a.filas = b.filas) (h2 : a.columnas = b.columnas) :
    (∃ s d, a.add b = .ok s ∧ s.sub b = .ok d ∧ d.eq a = true) ∧
    (∃ s t, a.add b = .ok s ∧ b.add a = .ok t ∧ s.eq t = true) := by
  have hadd : a.add b = .ok ⟨a.aumentada, a.filas, a.columnas,
      (a.valores.zip b.valores).map fun p => (p.1.zip p.2).map fun q => q.1 + q.2⟩ := by
    unfold Matriz.add
    simp [h1, h2]
  have hadd2 : b.add a = .ok ⟨b.aumentada, b.filas, b.columnas,
      (b.valores.zip a.valores).map fun p => (p.1.zip p.2).map fun q => q.1 + q.2⟩ := by
    unfold Matriz.add
    simp [h1, h2]
  have hsub : (Matriz.sub ⟨a.aumentada, a.filas, a.columnas,
      (a.valores.zip b.valores).map fun p => (p.1.zip p.2).map fun q => q.1 + q.2⟩ b) =
      .ok ⟨a.aumentada, a.filas, a.columnas,
      ((((a.valores.zip b.valores).map fun p => (p.1.zip p.2).map fun q => q.1 + q.2).zip
          b.valores).map fun p => (p.1.zip p.2).map fun q => q.1 - q.2)⟩ := by
    unfold Matriz.sub
    simp [h1, h2]
  refine ⟨⟨_, _, hadd, hsub, ?_⟩, ⟨_, _, hadd, hadd2, ?_⟩⟩
  · unfold Matriz.eq
    simp only [ne_eq, not_true_eq_false, false_or, if_false]
    exact mat_add_sub_cancel a.valores b.valores
  · unfold Matriz.eq
    simp only [h1, h2, ne_eq, not_true_eq_false, false_or, if_false]
    exact mat_add_comm a.valores b.valores

/-- Witness for C8 at `A = [[1,2],[3,4]]`, `B = [[5,6],[7,8]]`. -/
theorem claim_c8_w :
    (∃ s d, Matriz.add ⟨false, 2, 2, [[1,2],[3,4]]⟩ ⟨true, 2, 2, [[5,6],[7,8]]⟩ = .ok s ∧
      s.sub ⟨true, 2, 2, [[5,6],[7,8]]⟩ = .ok d ∧ d.eq ⟨false, 2, 2, [[1,2],[3,4]]⟩ = true) ∧
    (∃ s t, Matriz.add ⟨false, 2, 2, [[1,2],[3,4]]⟩ ⟨true, 2, 2, [[5,6],[7,8]]⟩ = .ok s ∧
      Matriz.add ⟨true, 2, 2, [[5,6],[7,8]]⟩ ⟨false, 2, 2, [[1,2],[3,4]]⟩ = .ok t ∧
      s.eq t = true) :=
  claim_c8 ⟨false, 2, 2, [[1,2],[3,4]]⟩ ⟨true, 2, 2, [[5,6],[7,8]]⟩ rfl rfl

/-! ### Claim C3: bounds checking of `__getitem__` / `__setitem__` -/

lemma bind_ok {α β : Type} {x : Except PyErr α} {a : α} (h : x = .ok a)
    (f : α → Except PyErr β) : (x >>= f) = f a := by
  rw [h]; rfl

lemma bind_err {α β : Type} {x : Except PyErr α} {e : PyErr} (h : x = .error e)
    (f : α → Except PyErr β) : (x >>= f) = .error e := by
  rw [h]; rfl

lemma pyIdxInt_ok_nonneg {α : Type} (d : α) {l : List α} {i : Int} (h0 : 0 ≤ i)
    (h1 : i < (l.length : Int)) : pyIdxInt l i = .ok (l.getD i.toNat d) := by
  unfold pyIdxInt pyAjuste
  rw [if_neg (by omega : ¬ i < 0)]
  rw [if_neg (by omega : ¬ i < 0)]
  exact pyIdx_ok_of_lt d (by omega)

lemma pyIdxInt_ok_neg {α : Type} (d : α) {l : List α} {i : Int} (hn : i < 0)
    (h2 : 0 ≤ i + (l.length : Int)) :
    pyIdxInt l i = .ok (l.getD (i + (l.length : Int)).toNat d) := by
  unfold pyIdxInt pyAjuste
  rw [if_pos hn]
  rw [if_neg (by omega : ¬ i + (l.length : Int) < 0)]
  exact pyIdx_ok_of_lt d (by omega)

lemma pyIdxInt_err {α : Type} {l : List α} {i : Int}
    (h : i < -(l.length : Int) ∨ (l.length : Int) ≤ i) : pyIdxInt l i = .error .index := by
  unfold pyIdxInt pyAjuste
  by_cases hn : i < 0
  · rw [if_pos hn]
    rcases h with h | h
    · rw [if_pos (by omega)]
    · exfalso; omega
  · rw [if_neg hn]
    rcases h with h | h
    · exfalso; omega
    · rw [if_neg (by omega : ¬ i < 0)]
      exact pyIdx_err_of_le (by omega)

lemma pySetInt_ok_nonneg {α : Type} {l : List α} {i : Int} (v : α) (h0 : 0 ≤ i)
    (h1 : i < (l.length : Int)) : pySetInt l i v = .ok (l.set i.toNat v) := by
  unfold pySetInt pyAjuste
  rw [if_neg (by omega : ¬ i < 0)]
  rw [if_neg (by omega : ¬ i < 0)]
  rw [if_pos (by omega : i.toNat < l.length)]

/-- Claim C3, counterexample: on the well-formed matrix `[[1,2],[3,4]]` the
tuple access `A[-1, 0]` does not raise: it wraps Python-style and returns
the entry `3` of the last row, so element access does not fail for every
index outside `[0, bound)`. -/
theorem claim_c3_contra :
    Matriz.getValor ⟨false, 2, 2, [[1,2],[3,4]]⟩ (-1) 0 = .ok 3 := rfl

/-- Claim C3, amended: row access raises `IndexError` exactly outside
`[0, filas)` (including every negative index); `set` raises exactly when
either index is outside `[0, bound)`; but tuple element access raises
exactly when an index is `≥` its bound or `< -bound`, and an in-range
negative index silently wraps by `+ bound` instead of raising. -/
theorem claim_c3_amended (m : Matriz) (hm : m.wf) :
    (∀ i : Int, 0 ≤ i → i < (m.filas : Int) →
      m.getFila i = .ok (m.valores.getD i.toNat [])) ∧
    (∀ i : Int, i < 0 ∨ (m.filas : Int) ≤ i → m.getFila i = .error .index) ∧
    (∀ (i j : Int) (v : ℚ), 0 ≤ i → i < (m.filas : Int) → 0 ≤ j → j < (m.columnas : Int) →
      ∃ m2, m.setValor i j v = .ok m2) ∧
    (∀ (i j : Int) (v : ℚ), i < 0 ∨ j < 0 ∨ (m.filas : Int) ≤ i ∨ (m.columnas : Int) ≤ j →
      m.setValor i j v = .error .index) ∧
    (∀ i j : Int, (∃ q, m.getValor i j = .ok q) ↔
      (-(m.filas : Int) ≤ i ∧ i < (m.filas : Int) ∧
        -(m.columnas : Int) ≤ j ∧ j < (m.columnas : Int))) ∧
    (∀ i j : Int, -(m.filas : Int) ≤ i → i < 0 → 0 ≤ j → j < (m.columnas : Int) →
      m.getValor i j = .ok (entrada m.valores (i + (m.filas : Int)).toNat j.toNat)) := by
  have hlen : (m.valores.length : Int) = (m.filas : Int) := by
    exact_mod_cast congrArg Nat.cast hm.1
  have hfila : ∀ r : Nat, r < m.filas → (m.valores.getD r []).length = m.columnas :=
    fun r hr => forma_fila ⟨hm.1, hm.2⟩ hr
  refine ⟨?_, ?_, ?_, ?_, ?_, ?_⟩
  · intro i h0 h1
    unfold Matriz.getFila
    rw [if_neg (by omega : ¬ (i < 0 ∨ (m.filas : Int) ≤ i))]
    exact pyIdx_ok_of_lt [] (by omega)
  · intro i h
    unfold Matriz.getFila
    rw [if_pos h]
  · intro i j v h0 h1 h2 h3
    unfold Matriz.setValor
    rw [if_neg (by omega :
      ¬ (i < 0 ∨ j < 0 ∨ (m.filas : Int) ≤ i ∨ (m.columnas : Int) ≤ j))]
    rw [bind_ok (pyIdxInt_ok_nonneg [] h0 (by omega))]
    rw [bind_ok (pySetInt_ok_nonneg v h2 (by rw [hfila i.toNat (by omega)]; omega))]
    exact ⟨_, rfl⟩
  · intro i j v h
    unfold Matriz.setValor
    rw [if_pos h]
  · intro i j
    constructor
    · rintro ⟨q, hq⟩
      by_contra hrange
      unfold Matriz.getValor at hq
      by_cases hg : (m.filas : Int) ≤ i ∨ (m.columnas : Int) ≤ j
      · rw [if_pos hg] at hq
        cases hq
      · rw [if_neg hg] at hq
        push_neg at hg
        by_cases hi : i < -(m.filas : Int)
        · rw [bind_err (pyIdxInt_err (by omega))] at hq
          cases hq
        · have hj : j < -(m.columnas : Int) := by omega
          have hrow : ∃ r : Nat, r < m.filas ∧
              pyIdxInt m.valores i = .ok (m.valores.getD r []) := by
            by_cases hneg : i < 0
            · exact ⟨(i + (m.valores.length : Int)).toNat, by omega,
                pyIdxInt_ok_neg [] hneg (by omega)⟩
            · exact ⟨i.toNat, by omega, pyIdxInt_ok_nonneg [] (by omega) (by omega)⟩
          obtain ⟨r, hr, hok⟩ := hrow
          rw [bind_ok hok] at hq
          rw [pyIdxInt_err (by rw [hfila r hr]; omega)] at hq
          cases hq
    · rintro ⟨h1, h2, h3, h4⟩
      unfold Matriz.getValor
      rw [if_neg (by omega : ¬ ((m.filas : Int) ≤ i ∨ (m.columnas : Int) ≤ j))]
      have hrow : ∃ r : Nat, r < m.filas ∧
          pyIdxInt m.valores i = .ok (m.valores.getD r []) := by
        by_cases hneg : i < 0
        · exact ⟨(i + (m.valores.length : Int)).toNat, by omega,
            pyIdxInt_ok_neg [] hneg (by omega)⟩
        · exact ⟨i.toNat, by omega, pyIdxInt_ok_nonneg [] (by omega) (by omega)⟩
      obtain ⟨r, hr, hok⟩ := hrow
      rw [bind_ok hok]
      by_cases hjn : j < 0
      · rw [pyIdxInt_ok_neg 0 hjn (by rw [hfila r hr]; omega)]
        exact ⟨_, rfl⟩
      · rw [pyIdxInt_ok_nonneg 0 (by omega) (by rw [hfila r hr]; omega)]
        exact ⟨_, rfl⟩
  · intro i j h1 h2 h3 h4
    unfold Matriz.getValor
    rw [if_neg (by omega : ¬ ((m.filas : Int) ≤ i ∨ (m.columnas : Int) ≤ j))]
    rw [bind_ok (pyIdxInt_ok_neg [] h2 (by omega))]
    rw [pyIdxInt_ok_nonneg 0 h3
      (by rw [hfila (i + (m.valores.length : Int)).toNat (by omega)]; omega)]
    unfold entrada
    rw [hlen]

/-- Witness for C3 (amended) at the matrix `[[1,2],[3,4]]`: row access at
`-1` and `set` at row `2` raise, `set` inside bounds succeeds. -/
theorem claim_c3_w :
    Matriz.getFila ⟨false, 2, 2, [[1,2],[3,4]]⟩ (-1) = .error .index ∧
    Matriz.setValor ⟨false, 2, 2, [[1,2],[3,4]]⟩ 2 0 7 = .error .index ∧
    ∃ m2, Matriz.setValor ⟨false, 2, 2, [[1,2],[3,4]]⟩ 0 1 7 = .ok m2 :=
  ⟨(claim_c3_amended ⟨false, 2, 2, [[1,2],[3,4]]⟩ (by decide)).2.1 (-1)
      (Or.inl (by decide)),
   (claim_c3_amended ⟨false, 2, 2, [[1,2],[3,4]]⟩ (by decide)).2.2.2.1 2 0 7
      (Or.inr (Or.inr (Or.inl (by decide)))),
   (claim_c3_amended ⟨false, 2, 2, [[1,2],[3,4]]⟩ (by decide)).2.2.1 0 1 7
      (by decide) (by decide) (by decide) (by decide)⟩

/-! ### Claim C2: `es_identidad` on the failing input -/

/-- Claim C2 (code bug): on the well-formed non-square matrix
`[[1],[0]]` (2 rows, 1 column) the diagonal generator evaluates
`valores[1][1]` before `es_cuadrada()` is consulted, so `es_identidad`
raises `IndexError` instead of returning `False` as its own docstring and
the spec describe. -/
theorem claim_c2_bug :
    Matriz.esIdentidad ⟨false, 2, 1, [[1],[0]]⟩ = .error .index := rfl

/-! ### Claims C6 and C7: `transponer` and matrix multiplication -/

lemma mapE_ok {α β : Type} {f : α → Except PyErr β} {g : α → β} :
    ∀ {l : List α}, (∀ x ∈ l, f x = .ok (g x)) → mapE f l = .ok (l.map g) := by
  intro l
  induction l with
  | nil => intro _; rfl
  | cons x xs ih =>
    intro h
    unfold mapE
    rw [bind_ok (h x (by simp))]
    rw [bind_ok (ih (fun y hy => h y (by simp [hy])))]
    rfl

lemma getD_map_range {α : Type} (d : α) {f : Nat → α} {i n : Nat} (h : i < n) :
    ((List.range n).map f).getD i d = f i := by
  rw [getD_eq_getElem d (by simpa using h)]
  simp

lemma fila_reconstruir {α : Type} (d : α) :
    ∀ (l : List α) (n : Nat), l.length = n → (List.range n).map (fun i => l.getD i d) = l := by
  intro l
  induction l with
  | nil =>
    intro n h
    simp [← h]
  | cons a t ih =>
    intro n h
    cases n with
    | zero => simp at h
    | succ k =>
      rw [List.range_succ_eq_map]
      simp only [List.map_cons, List.getD_cons_zero, List.map_map]
      have : ((fun i => (a :: t).getD i d) ∘ Nat.succ) = fun i => t.getD i d := by
        funext i
        simp
      rw [this, ih k (by simpa using h)]

lemma grid_reconstruir {F C : Nat} {vals : List (List ℚ)} (hf : Forma F C vals) :
    (List.range F).map (fun r => (List.range C).map (fun c => entrada vals r c)) = vals := by
  have hrow : ∀ r ∈ List.range F,
      (List.range C).map (fun c => entrada vals r c) = vals.getD r [] := by
    intro r hr
    exact fila_reconstruir 0 _ _ (forma_fila hf (by simpa using hr))
  rw [List.map_congr_left hrow]
  exact fila_reconstruir [] vals F hf.1

/-- Claim C6: for every well-formed matrix, `transponer` returns a new
`columnas × filas` matrix with `result[i][j] = original[j][i]` and the same
`aumentada` flag, and transposing twice recovers the original matrix. -/
theorem claim_c6 (m : Matriz) (hm : m.wf) :
    ∃ t, m.transponer = .ok t ∧ t.filas = m.columnas ∧ t.columnas = m.filas ∧
      t.aumentada = m.aumentada ∧
      (∀ i j, i < m.columnas → j < m.filas → entrada t.valores i j = entrada m.valores j i) ∧
      t.transponer = .ok m := by
  have hforma : Forma m.filas m.columnas m.valores := ⟨hm.1, hm.2⟩
  have htv : m.transponer = .ok ⟨m.aumentada, m.columnas, m.filas,
      (List.range m.columnas).map
        (fun i => (List.range m.filas).map (fun j => entrada m.valores j i))⟩ := by
    unfold Matriz.transponer
    rw [bind_ok (mapE_ok (fun i hi => mapE_ok (fun j hj =>
      pyIdx2_ok_forma hforma (by simpa using hj) (by simpa using hi))))]
  refine ⟨_, htv, rfl, rfl, rfl, ?_, ?_⟩
  · intro i j hi hj
    unfold entrada
    rw [getD_map_range [] hi, getD_map_range 0 hj]
  · have hforma2 : Forma m.columnas m.filas
        ((List.range m.columnas).map
          (fun i => (List.range m.filas).map (fun j => entrada m.valores j i))) := by
      constructor
      · simp
      · intro fila hfila
        obtain ⟨i, hi, rfl⟩ := List.mem_map.mp hfila
        simp
    have htv2 : Matriz.transponer ⟨m.aumentada, m.columnas, m.filas,
        (List.range m.columnas).map
          (fun i => (List.range m.filas).map (fun j => entrada m.valores j i))⟩ =
        .ok ⟨m.aumentada, m.filas, m.columnas,
          (List.range m.filas).map
            (fun i => (List.range m.columnas).map
              (fun j => entrada ((List.range m.columnas).map
                (fun i2 => (List.range m.filas).map (fun j2 => entrada m.valores j2 i2))) j i))⟩ := by
      unfold Matriz.transponer
      rw [bind_ok (mapE_ok (fun i hi => mapE_ok (fun j hj =>
        pyIdx2_ok_forma hforma2 (by simpa using hj) (by simpa using hi))))]
    rw [htv2]
    have hentry : (List.range m.filas).map
        (fun i => (List.range m.columnas).map
          (fun j => entrada ((List.range m.columnas).map
            (fun i2 => (List.range m.filas).map (fun j2 => entrada m.valores j2 i2))) j i)) =
        m.valores := by
      have h1 : (List.range m.filas).map
          (fun i => (List.range m.columnas).map
            (fun j => entrada ((List.range m.columnas).map
              (fun i2 => (List.range m.filas).map (fun j2 => entrada m.valores j2 i2))) j i)) =
          (List.range m.filas).map
            (fun r => (List.range m.columnas).map (fun c => entrada m.valores r c)) := by
        apply List.map_congr_left
        intro i hi
        apply List.map_congr_left
        intro j hj
        unfold entrada
        rw [getD_map_range [] (by simpa using hj), getD_map_range 0 (by simpa using hi)]
      rw [h1, grid_reconstruir hforma]
    rw [hentry]

/-- Witness for C6 at `[[1,2],[3,4]]`. -/
theorem claim_c6_w :
    ∃ t, Matriz.transponer ⟨false, 2, 2, [[1,2],[3,4]]⟩ = .ok t ∧
      t.filas = 2 ∧ t.columnas = 2 ∧ t.aumentada = false ∧
      (∀ i j, i < 2 → j < 2 →
        entrada t.valores i j = entrada [[(1 : ℚ),2],[3,4]] j i) ∧
      t.transponer = .ok ⟨false, 2, 2, [[1,2],[3,4]]⟩ :=
  claim_c6 ⟨false, 2, 2, [[1,2],[3,4]]⟩ (by decide)

lemma foldE_suma {f : ℚ → Nat → Except PyErr ℚ} {g : Nat → ℚ} :
    ∀ {l : List Nat}, (∀ (acc : ℚ), ∀ k ∈ l, f acc k = .ok (acc + g k)) →
    ∀ acc : ℚ, foldE f acc l = .ok (acc + (l.map g).sum) := by
  intro l
  induction l with
  | nil =>
    intro _ acc
    simp [foldE]
  | cons x xs ih =>
    intro h acc
    unfold foldE
    rw [bind_ok (h acc x (by simp))]
    rw [ih (fun a k hk => h a k (by simp [hk])) (acc + g x)]
    rw [List.map_cons, List.sum_cons, add_assoc]

/-- Claim C7: `a * b` on matrices raises the dimension error iff
`a.columnas ≠ b.filas`; otherwise it returns a new well-formed
`a.filas × b.columnas` matrix whose entry `(i, j)` is the exact rational
sum over `k` of `a[i][k] * b[k][j]`, inheriting `a.aumentada`. -/
theorem claim_c7 (a b : Matriz) (ha : a.wf) (hb : b.wf) :
    (a.columnas ≠ b.filas → a.mulMatriz b = .error .dimension) ∧
    (a.columnas = b.filas → ∃ c, a.mulMatriz b = .ok c ∧ c.filas = a.filas ∧
      c.columnas = b.columnas ∧ c.aumentada = a.aumentada ∧ c.wf ∧
      ∀ i j, i < a.filas → j < b.columnas →
        entrada c.valores i j =
          ((List.range a.columnas).map
            (fun k => entrada a.valores i k * entrada b.valores k j)).sum) := by
  constructor
  · intro hne
    unfold Matriz.mulMatriz
    rw [if_pos hne]
  · intro hdim
    have hfa : Forma a.filas a.columnas a.valores := ⟨ha.1, ha.2⟩
    have hfb : Forma b.filas b.columnas b.valores := ⟨hb.1, hb.2⟩
    have hvals : a.mulMatriz b = .ok ⟨a.aumentada, a.filas, b.columnas,
        (List.range a.filas).map (fun i => (List.range b.columnas).map
          (fun j => ((List.range a.columnas).map
            (fun k => entrada a.valores i k * entrada b.valores k j)).sum))⟩ := by
      unfold Matriz.mulMatriz
      rw [if_neg (by simp [hdim])]
      rw [bind_ok (mapE_ok (fun i hi => mapE_ok (fun j hj => ?_)))]
      have hfold := foldE_suma
        (f := fun acc k => do
          let x ← pyIdx2 a.valores i k
          let y ← pyIdx2 b.valores k j
          .ok (acc + x * y))
        (g := fun k => entrada a.valores i k * entrada b.valores k j)
        (l := List.range a.columnas) ?_ 0
      · rw [hfold, zero_add]
      · intro acc k hk
        dsimp only
        rw [bind_ok (pyIdx2_ok_forma hfa (by simpa using hi) (by simpa using hk))]
        rw [bind_ok (pyIdx2_ok_forma hfb (by rw [← hdim]; simpa using hk) (by simpa using hj))]
    refine ⟨_, hvals, rfl, rfl, rfl, ⟨by simp, ?_⟩, ?_⟩
    · intro fila hfila
      obtain ⟨i, hi, rfl⟩ := List.mem_map.mp hfila
      simp
    · intro i j hi hj
      unfold entrada
      rw [getD_map_range [] hi, getD_map_range 0 hj]

/-- Witness for C7: the `[[1,2],[3,4]]` scenario of spec §8 (the product
entries match) together with a dimension-mismatch failure. -/
theorem claim_c7_w :
    ((2 : Nat) ≠ 1 → Matriz.mulMatriz ⟨false, 2, 2, [[1,2],[3,4]]⟩ ⟨false, 1, 1, [[5]]⟩ =
      .error .dimension) ∧
    ((2 : Nat) = 1 → ∃ c, Matriz.mulMatriz ⟨false, 2, 2, [[1,2],[3,4]]⟩ ⟨false, 1, 1, [[5]]⟩ =
      .ok c ∧ c.filas = 2 ∧ c.columnas = 1 ∧ c.aumentada = false ∧ c.wf ∧
      ∀ i j, i < 2 → j < 1 →
        entrada c.valores i j =
          ((List.range 2).map
            (fun k => entrada [[(1 : ℚ),2],[3,4]] i k * entrada [[(5 : ℚ)]] k j)).sum) :=
  claim_c7 ⟨false, 2, 2, [[1,2],[3,4]]⟩ ⟨false, 1, 1, [[5]]⟩ (by decide) (by decide)

/-! ### Claims C1, C4, C5: the triangularization loop -/

lemma foldE_cons {σ α : Type} (f : σ → α → Except PyErr σ) (s : σ) (x : α) (xs : List α) :
    foldE f s (x :: xs) = (f s x >>= fun s2 => foldE f s2 xs) := rfl

lemma pivotMaxGo_cons (vals : List (List ℚ)) (col best : Nat) (bestAbs : ℚ) (j : Nat)
    (rest : List Nat) :
    pivotMaxGo vals col best bestAbs (j :: rest) =
      (pyIdx2 vals j col >>= fun v =>
        if bestAbs < |v| then pivotMaxGo vals col j |v| rest
        else pivotMaxGo vals col best bestAbs rest) := rfl

lemma pivotMax_cons (vals : List (List ℚ)) (col j0 : Nat) (rest : List Nat) :
    pivotMax vals col (j0 :: rest) =
      (pyIdx2 vals j0 col >>= fun v => pivotMaxGo vals col j0 |v| rest) := rfl

lemma entrada_set_self {vals : List (List ℚ)} {r : Nat} {row : List ℚ} (hr : r < vals.length)
    (c : Nat) : entrada (vals.set r row) r c = row.getD c 0 := by
  unfold entrada
  simp [List.getD_eq_getElem?_getD, List.getElem?_set_eq_of_lt, hr]

lemma entrada_set_ne {vals : List (List ℚ)} {r r2 : Nat} {row : List ℚ} (h : r ≠ r2)
    (c : Nat) : entrada (vals.set r row) r2 c = entrada vals r2 c := by
  unfold entrada
  simp [List.getD_eq_getElem?_getD, List.getElem?_set_ne h]

lemma fila_set_self {row : List ℚ} {k : Nat} {v : ℚ} (hk : k < row.length) :
    (row.set k v).getD k 0 = v := by
  simp [List.getD_eq_getElem?_getD, List.getElem?_set_eq_of_lt, hk]

lemma fila_set_ne {row : List ℚ} {k k2 : Nat} {v : ℚ} (h : k ≠ k2) :
    (row.set k v).getD k2 0 = row.getD k2 0 := by
  simp [List.getD_eq_getElem?_getD, List.getElem?_set_ne h]

lemma forma_set {F C : Nat} {vals : List (List ℚ)} (hf : Forma F C vals) {r : Nat}
    {row : List ℚ} (hrow : row.length = C) : Forma F C (vals.set r row) := by
  constructor
  · rw [List.length_set, hf.1]
  · intro fila hfila
    rcases List.mem_or_eq_of_mem_set hfila with h | h
    · exact hf.2 fila h
    · rw [h, hrow]

lemma pivotMaxGo_spec {vals : List (List ℚ)} {col : Nat} :
    ∀ (cands : List Nat) (best : Nat),
      (∀ j ∈ cands, j < vals.length ∧ col < (vals.getD j []).length) →
      ∃ m, pivotMaxGo vals col best |entrada vals best col| cands = .ok m ∧
        (m = best ∨ m ∈ cands) ∧ |entrada vals best col| ≤ |entrada vals m col| ∧
        ∀ j ∈ cands, |entrada vals j col| ≤ |entrada vals m col| := by
  intro cands
  induction cands with
  | nil =>
    intro best h
    exact ⟨best, rfl, Or.inl rfl, le_refl _, by simp⟩
  | cons j rest ih =>
    intro best h
    have hj := h j (by simp)
    have hok := pyIdx2_ok hj.1 hj.2
    rw [pivotMaxGo_cons, bind_ok hok]
    by_cases hlt : |entrada vals best col| < |entrada vals j col|
    · rw [if_pos hlt]
      obtain ⟨m, hok2, hmem, hle, hall⟩ := ih j (fun j2 hj2 => h j2 (by simp [hj2]))
      refine ⟨m, hok2, ?_, (le_of_lt hlt).trans hle, ?_⟩
      · rcases hmem with rfl | hm
        · exact Or.inr (by simp)
        · exact Or.inr (by simp [hm])
      · intro j2 hj2
        rcases List.mem_cons.mp hj2 with rfl | hm
        · exact hle
        · exact hall j2 hm
    · rw [if_neg hlt]
      obtain ⟨m, hok2, hmem, hle, hall⟩ := ih best (fun j2 hj2 => h j2 (by simp [hj2]))
      refine ⟨m, hok2, ?_, hle, ?_⟩
      · rcases hmem with rfl | hm
        · exact Or.inl rfl
        · exact Or.inr (by simp [hm])
      · intro j2 hj2
        rcases List.mem_cons.mp hj2 with rfl | hm
        · exact (not_lt.mp hlt).trans hle
        · exact hall j2 hm

lemma pivotMax_spec {vals : List (List ℚ)} {col j0 : Nat} {rest : List Nat}
    (h : ∀ j ∈ j0 :: rest, j < vals.length ∧ col < (vals.getD j []).length) :
    ∃ m, pivotMax vals col (j0 :: rest) = .ok m ∧ m ∈ j0 :: rest ∧
      ∀ j ∈ j0 :: rest, |entrada vals j col| ≤ |entrada vals m col| := by
  have hj0 := h j0 (by simp)
  have hok := pyIdx2_ok hj0.1 hj0.2
  obtain ⟨m, hgo, hmem, hle, hall⟩ := pivotMaxGo_spec rest j0 (fun j hj => h j (by simp [hj]))
  refine ⟨m, ?_, ?_, ?_⟩
  · rw [pivotMax_cons, bind_ok hok]
    exact hgo
  · rcases hmem with rfl | hm
    · simp
    · simp [hm]
  · intro j hj
    rcases List.mem_cons.mp hj with rfl | hm
    · exact hle
    · exact hall j hm

lemma pySet2_ok {vals : List (List ℚ)} {r c : Nat} (v : ℚ) (hr : r < vals.length)
    (hc : c < (vals.getD r []).length) :
    pySet2 vals r c v = .ok (vals.set r ((vals.getD r []).set c v)) := by
  unfold pySet2
  rw [bind_ok (pyIdx_ok_of_lt [] hr)]
  rw [if_pos hc]

lemma elimEntrada_ok {i j : Nat} {factor : ℚ} {vals : List (List ℚ)} {k : Nat}
    (hi : i < vals.length) (hj : j < vals.length)
    (hic : k < (vals.getD i []).length) (hjc : k < (vals.getD j []).length) :
    elimEntrada i j factor vals k =
      .ok (vals.set j ((vals.getD j []).set k
        (entrada vals j k - factor * entrada vals i k))) := by
  unfold elimEntrada
  rw [bind_ok (pyIdx2_ok hj hjc), bind_ok (pyIdx2_ok hi hic)]
  exact pySet2_ok _ hj hjc

lemma elimFilaGo_spec {F C : Nat} {i j : Nat} {factor : ℚ} (hij : i ≠ j) (hiF : i < F)
    (hjF : j < F) :
    ∀ (ks : List Nat) (vals : List (List ℚ)), Forma F C vals → ks.Nodup →
      (∀ k ∈ ks, k < C) →
      ∃ vals2, foldE (elimEntrada i j factor) vals ks = .ok vals2 ∧
        Forma F C vals2 ∧
        (∀ r, r ≠ j → ∀ c, entrada vals2 r c = entrada vals r c) ∧
        (∀ c, c ∈ ks → entrada vals2 j c = entrada vals j c - factor * entrada vals i c) ∧
        (∀ c, c ∉ ks → entrada vals2 j c = entrada vals j c) := by
  intro ks
  induction ks with
  | nil =>
    intro vals hf _ _
    exact ⟨vals, rfl, hf, fun _ _ _ => rfl, fun c hc => absurd hc (by simp),
      fun _ _ => rfl⟩
  | cons k ks ih =>
    intro vals hf hnd hbnd
    have hiL : i < vals.length := by rw [hf.1]; exact hiF
    have hjL : j < vals.length := by rw [hf.1]; exact hjF
    have hkC : k < C := hbnd k (by simp)
    have hicl : k < (vals.getD i []).length := by rw [forma_fila hf hiF]; exact hkC
    have hjcl : k < (vals.getD j []).length := by rw [forma_fila hf hjF]; exact hkC
    have hstep := @elimEntrada_ok i j factor vals k hiL hjL hicl hjcl
    rw [foldE_cons, bind_ok hstep]
    have hf1 : Forma F C (vals.set j ((vals.getD j []).set k
        (entrada vals j k - factor * entrada vals i k))) :=
      forma_set hf (by rw [List.length_set, forma_fila hf hjF])
    obtain ⟨vals2, hok2, hf2, hotros, hdentro, hfuera⟩ :=
      ih _ hf1 (List.Nodup.of_cons hnd) (fun k2 hk2 => hbnd k2 (by simp [hk2]))
    have hknotin : k ∉ ks := (List.nodup_cons.mp hnd).1
    have hset_j : ∀ c, entrada (vals.set j ((vals.getD j []).set k
        (entrada vals j k - factor * entrada vals i k))) j c =
        ((vals.getD j []).set k (entrada vals j k - factor * entrada vals i k)).getD c 0 :=
      entrada_set_self hjL
    have hset_otros : ∀ r, r ≠ j → ∀ c, entrada (vals.set j ((vals.getD j []).set k
        (entrada vals j k - factor * entrada vals i k))) r c = entrada vals r c :=
      fun r hr c => entrada_set_ne (fun he => hr he.symm) c
    refine ⟨vals2, hok2, hf2, ?_, ?_, ?_⟩
    · intro r hr c
      rw [hotros r hr c, hset_otros r hr c]
    · intro c hc
      rcases List.mem_cons.mp hc with rfl | hcks
      · rw [hfuera c hknotin, hset_j c, fila_set_self hjcl]
      · have hck : c ≠ k := fun he => hknotin (he ▸ hcks)
        rw [hdentro c hcks]
        rw [hset_j c, fila_set_ne (fun he => hck he.symm)]
        rw [hset_otros i hij c]
        rfl
    · intro c hc
      have hck : c ≠ k := fun he => hc (by simp [he])
      have hcks : c ∉ ks := fun hm => hc (by simp [hm])
      rw [hfuera c hcks, hset_j c, fila_set_ne (fun he => hck he.symm)]
      rfl

lemma elimPaso_ok {F C i j : Nat} {vals : List (List ℚ)} (hf : Forma F C vals)
    (hij : i < j) (hjF : j < F) (hiC : i < C) (hvii : entrada vals i i ≠ 0) :
    ∃ vals2, elimPaso i C vals j = .ok vals2 ∧ Forma F C vals2 ∧
      (∀ r, r ≠ j → ∀ c, entrada vals2 r c = entrada vals r c) ∧
      (∀ c, c < C → entrada vals2 j c =
        entrada vals j c - (entrada vals j i / entrada vals i i) * entrada vals i c) := by
  have hiF : i < F := lt_trans hij hjF
  obtain ⟨vals2, hok, hf2, hotros, hdentro, -⟩ :=
    @elimFilaGo_spec F C i j (entrada vals j i / entrada vals i i)
      (Nat.ne_of_lt hij) hiF hjF (List.range C) vals hf (List.nodup_range C)
      (fun k hk => List.mem_range.mp hk)
  refine ⟨vals2, ?_, hf2, hotros, fun c hc => hdentro c (List.mem_range.mpr hc)⟩
  unfold elimPaso
  rw [bind_ok (pyIdx2_ok_forma hf hjF hiC), bind_ok (pyIdx2_ok_forma hf hiF hiC)]
  rw [if_neg hvii]
  exact hok

lemma elimFilas_spec {F C i : Nat} (hiC : i < C) :
    ∀ (n s : Nat) (vals : List (List ℚ)), Forma F C vals → i < s → s + n ≤ F →
      entrada vals i i ≠ 0 →
      ∃ vals2, foldE (fun v j => elimPaso i C v j) vals (List.range' s n) = .ok vals2 ∧
        Forma F C vals2 ∧
        (∀ r, r < s → ∀ c, entrada vals2 r c = entrada vals r c) ∧
        (∀ r, s + n ≤ r → ∀ c, entrada vals2 r c = entrada vals r c) ∧
        (∀ j, s ≤ j → j < s + n → ∀ c, c < C → entrada vals2 j c =
          entrada vals j c - (entrada vals j i / entrada vals i i) * entrada vals i c) := by
  intro n
  induction n with
  | zero =>
    intro s vals hf _ _ _
    exact ⟨vals, rfl, hf, fun _ _ _ => rfl, fun _ _ _ => rfl, fun j h1 h2 => by omega⟩
  | succ n ih =>
    intro s vals hf his hsnF hvii
    have hsF : s < F := by omega
    obtain ⟨vals1, hok1, hf1, hotros1, hfila1⟩ := elimPaso_ok hf his hsF hiC hvii
    have hne_is : i ≠ s := Nat.ne_of_lt his
    have hvii1 : entrada vals1 i i ≠ 0 := by
      rw [hotros1 i hne_is i]; exact hvii
    obtain ⟨vals2, hok2, hf2, hantes, hdespues, hmedio⟩ :=
      ih (s + 1) vals1 hf1 (by omega) (by omega) hvii1
    have hrango : List.range' s (n + 1) = s :: List.range' (s + 1) n := List.range'_succ s n 1
    rw [hrango, foldE_cons, bind_ok hok1]
    refine ⟨vals2, hok2, hf2, ?_, ?_, ?_⟩
    · intro r hr c
      rw [hantes r (by omega) c, hotros1 r (by omega) c]
    · intro r hr c
      rw [hdespues r (by omega) c, hotros1 r (by omega) c]
    · intro j hj1 hj2 c hc
      by_cases hjs : j = s
      · subst hjs
        rw [hantes j (by omega) c, hfila1 c hc]
      · have hj1' : s + 1 ≤ j := by omega
        rw [hmedio j hj1' (by omega) c hc]
        rw [hotros1 j hjs c, hotros1 j hjs i, hotros1 i hne_is i, hotros1 i hne_is c]

lemma swapFilas_ok {F C : Nat} {vals : List (List ℚ)} (hf : Forma F C vals) {i f : Nat}
    (hi : i < F) (hfl : f < F) :
    ∃ vals2, swapFilas vals i f = .ok vals2 ∧ Forma F C vals2 ∧
      (∀ c, entrada vals2 i c = entrada vals f c) ∧
      (∀ c, entrada vals2 f c = entrada vals i c) ∧
      (∀ r, r ≠ i → r ≠ f → ∀ c, entrada vals2 r c = entrada vals r c) := by
  have hiL : i < vals.length := by rw [hf.1]; exact hi
  have hfL : f < vals.length := by rw [hf.1]; exact hfl
  have hok : swapFilas vals i f = .ok ((vals.set i (vals.getD f [])).set f (vals.getD i [])) := by
    unfold swapFilas
    rw [bind_ok (pyIdx_ok_of_lt [] hiL), bind_ok (pyIdx_ok_of_lt [] hfL)]
  have hf2 : Forma F C ((vals.set i (vals.getD f [])).set f (vals.getD i [])) :=
    forma_set (forma_set hf (forma_fila hf hfl)) (forma_fila hf hi)
  have hfL2 : f < (vals.set i (vals.getD f [])).length := by rw [List.length_set]; exact hfL
  refine ⟨_, hok, hf2, ?_, ?_, ?_⟩
  · intro c
    by_cases hif : i = f
    · subst hif
      rw [entrada_set_self (by rw [List.length_set]; exact hiL) c]
      rfl
    · rw [entrada_set_ne (fun he => hif he.symm) c, entrada_set_self hiL c]
      rfl
  · intro c
    rw [entrada_set_self hfL2 c]
    rfl
  · intro r hri hrf c
    rw [entrada_set_ne (fun he => hrf he.symm) c, entrada_set_ne (fun he => hri he.symm) c]

lemma triPaso_spec {F C : Nat} (hFC : F ≤ C) {i : Nat} (hiF : i < F) :
    ∀ (vals : List (List ℚ)) (b : Bool), Forma F C vals →
      (∀ c, c < i → ∀ r, c < r → r < F → entrada vals r c = 0) →
      ∃ vals2 b2, triPaso F C (vals, b) i = .ok (vals2, b2) ∧ Forma F C vals2 ∧
        (∀ c, c < i + 1 → ∀ r, c < r → r < F → entrada vals2 r c = 0) := by
  intro vals b hf hinv
  have hiC : i < C := lt_of_lt_of_le hiF hFC
  have hrango : List.range' i (F - i) = i :: List.range' (i + 1) (F - i - 1) := by
    obtain ⟨k, hk⟩ : ∃ k, F - i = k + 1 := ⟨F - i - 1, by omega⟩
    rw [hk, List.range'_succ]
    simp
  have hbounds : ∀ j ∈ i :: List.range' (i + 1) (F - i - 1),
      j < vals.length ∧ i < (vals.getD j []).length := by
    intro j hj
    have hjF : j < F := by
      rcases List.mem_cons.mp hj with rfl | hm
      · exact hiF
      · have := List.mem_range'_1.mp hm
        omega
    exact ⟨by rw [hf.1]; exact hjF, by rw [forma_fila hf hjF]; exact hiC⟩
  obtain ⟨m, hpok, hmem, hmax⟩ := pivotMax_spec hbounds
  have hmF : m < F := by
    rcases List.mem_cons.mp hmem with rfl | hm
    · exact hiF
    · have := List.mem_range'_1.mp hm
      omega
  have him : i ≤ m := by
    rcases List.mem_cons.mp hmem with h | hm
    · omega
    · have := List.mem_range'_1.mp hm
      omega
  unfold triPaso
  dsimp only
  rw [hrango, bind_ok hpok]
  rw [bind_ok (pyIdx2_ok_forma hf hmF hiC)]
  by_cases hpv : entrada vals m i = 0
  · rw [if_pos hpv]
    refine ⟨vals, b, rfl, hf, ?_⟩
    intro c hc r hcr hrF
    by_cases hci : c < i
    · exact hinv c hci r hcr hrF
    · have hci2 : c = i := by omega
      subst hci2
      have hle := hmax r (List.mem_cons.mpr (Or.inr
        (List.mem_range'_1.mpr ⟨by omega, by omega⟩)))
      rw [hpv, abs_zero] at hle
      exact abs_eq_zero.mp (le_antisymm hle (abs_nonneg _))
  · rw [if_neg hpv]
    have hfinal : ∀ vals1, Forma F C vals1 → entrada vals1 i i = entrada vals m i →
        (∀ c, c < i → ∀ r, c < r → r < F → entrada vals1 r c = 0) →
        ∃ vals2 b2,
          (foldE (fun v j => elimPaso i C v j) vals1 (List.range' (i + 1) (F - (i + 1))) >>=
            fun vals3 => (Except.ok (vals3, if m ≠ i then !b else b) :
              Except PyErr (List (List ℚ) × Bool))) = .ok (vals2, b2) ∧
          Forma F C vals2 ∧ (∀ c, c < i + 1 → ∀ r, c < r → r < F → entrada vals2 r c = 0) := by
      intro vals1 hf1 hii1 hinv1
      have hvii1 : entrada vals1 i i ≠ 0 := by rw [hii1]; exact hpv
      obtain ⟨vals3, hok3, hf3, hantes, hdespues, hmedio⟩ :=
        elimFilas_spec hiC (F - (i + 1)) (i + 1) vals1 hf1 (by omega) (by omega) hvii1
      rw [bind_ok hok3]
      refine ⟨vals3, _, rfl, hf3, ?_⟩
      intro c hc r hcr hrF
      by_cases hci : c < i
      · by_cases hr_le : r ≤ i
        · rw [hantes r (by omega) c]
          exact hinv1 c hci r hcr hrF
        · rw [hmedio r (by omega) (by omega) c (by omega)]
          rw [hinv1 c hci r hcr hrF, hinv1 c hci i (by omega) hiF]
          ring
      · have hci2 : c = i := by omega
        subst hci2
        rw [hmedio r (by omega) (by omega) c hiC]
        field_simp
    by_cases hmi : m = i
    · rw [if_neg (show ¬ m ≠ i from by simp [hmi])]
      exact hfinal vals hf (by rw [hmi]) hinv
    · rw [if_pos hmi]
      obtain ⟨vals1, hok1, hf1, hii, hff, hotros⟩ := swapFilas_ok hf hiF hmF
      rw [bind_ok hok1]
      refine hfinal vals1 hf1 (hii i) ?_
      intro c hc r hcr hrF
      by_cases hri : r = i
      · subst hri
        rw [hii c]
        exact hinv c hc m (by omega) hmF
      · by_cases hrm : r = m
        · subst hrm
          rw [hff c]
          exact hinv c hc i (by omega) hiF
        · rw [hotros r hri hrm c]
          exact hinv c hc r hcr hrF

lemma triFold_spec {F C : Nat} (hFC : F ≤ C) :
    ∀ (n i : Nat), i + n = F → ∀ (vals : List (List ℚ)) (b : Bool), Forma F C vals →
      (∀ c, c < i → ∀ r, c < r → r < F → entrada vals r c = 0) →
      ∃ vals2 b2, foldE (triPaso F C) (vals, b) (List.range' i n) = .ok (vals2, b2) ∧
        Forma F C vals2 ∧ (∀ c, c < F → ∀ r, c < r → r < F → entrada vals2 r c = 0) := by
  intro n
  induction n with
  | zero =>
    intro i hiF vals b hf hinv
    refine ⟨vals, b, rfl, hf, ?_⟩
    intro c hc
    exact hinv c (by omega)
  | succ n ih =>
    intro i hiF vals b hf hinv
    obtain ⟨vals1, b1, hok1, hf1, hinv1⟩ := triPaso_spec hFC (by omega) vals b hf hinv
    obtain ⟨vals2, b2, hok2, hf2, hinv2⟩ := ih (i + 1) (by omega) vals1 b1 hf1 hinv1
    rw [List.range'_succ, foldE_cons, bind_ok hok1]
    exact ⟨vals2, b2, hok2, hf2, hinv2⟩

lemma ok_bind {α β : Type} (a : α) (f : α → Except PyErr β) :
    ((Except.ok a : Except PyErr α) >>= f) = f a := rfl

lemma err_bind {α β : Type} (e : PyErr) (f : α → Except PyErr β) :
    ((Except.error e : Except PyErr α) >>= f) = .error e := rfl

/-- Claim C1, counterexample: on the well-formed 2×1 matrix `[[1],[2]]`
(more rows than columns) the second outer iteration evaluates
`mat_triangular[1][1]` inside the pivot-selection key, which raises
`IndexError`; so `hacer_triangular_superior` does not return normally for
every input matrix. -/
theorem claim_c1_contra :
    Matriz.hacerTriangularSuperior ⟨false, 2, 1, [[1],[2]]⟩ = .error .index := rfl

/-- Claim C1, amended: for every well-formed matrix with
`filas ≤ columnas` (in particular every square matrix),
`hacer_triangular_superior` raises nothing and returns a matrix and a
boolean; and whenever the selected pivot entry is exactly zero the whole
iteration is skipped, leaving the rows and the swap flag unmodified.
Matrices with `filas > columnas` raise `IndexError` instead
(`claim_c1_contra`). -/
theorem claim_c1_amended :
    (∀ m : Matriz, m.wf → m.filas ≤ m.columnas →
      ∃ t b, m.hacerTriangularSuperior = .ok (t, b)) ∧
    (∀ (F C : Nat) (vals : List (List ℚ)) (b : Bool) (i maxF : Nat),
      pivotMax vals i (List.range' i (F - i)) = .ok maxF →
      pyIdx2 vals maxF i = .ok 0 →
      triPaso F C (vals, b) i = .ok (vals, b)) := by
  constructor
  · intro m hm hFC
    obtain ⟨vals2, b2, hok, -, -⟩ := triFold_spec hFC m.filas 0 (by omega) m.valores false
      ⟨hm.1, hm.2⟩ (fun c hc => absurd hc (by omega))
    unfold Matriz.hacerTriangularSuperior
    rw [List.range_eq_range' m.filas, bind_ok hok]
    exact ⟨_, _, rfl⟩
  · intro F C vals b i maxF h1 h2
    unfold triPaso
    dsimp only
    rw [bind_ok h1, bind_ok h2]
    rw [if_pos rfl]

/-- Witness for C1 (amended) at the square all-zero matrix: the run
succeeds, and the first iteration (zero pivot) returns the state
unchanged. -/
theorem claim_c1_w :
    (∃ t b, Matriz.hacerTriangularSuperior ⟨false, 2, 2, [[0,0],[0,0]]⟩ = .ok (t, b)) ∧
    triPaso 2 2 ([[(0 : ℚ),0],[0,0]], false) 0 = .ok ([[(0 : ℚ),0],[0,0]], false) :=
  ⟨claim_c1_amended.1 ⟨false, 2, 2, [[0,0],[0,0]]⟩ (by decide) (by decide),
   claim_c1_amended.2 2 2 [[0,0],[0,0]] false 0 0 rfl rfl⟩

/-- Claim C4: for every well-formed square matrix, `hacer_triangular_superior`
succeeds and the matrix it returns is upper-triangular: every entry
strictly below the main diagonal is exactly zero. -/
theorem claim_c4 (m : Matriz) (hm : m.wf) (hsq : m.filas = m.columnas) :
    ∃ t b, m.hacerTriangularSuperior = .ok (t, b) ∧
      ∀ r c, c < r → r < m.filas → entrada t.valores r c = 0 := by
  obtain ⟨vals2, b2, hok, hf2, hinv⟩ := triFold_spec (le_of_eq hsq) m.filas 0 (by omega)
    m.valores false ⟨hm.1, hm.2⟩ (fun c hc => absurd hc (by omega))
  unfold Matriz.hacerTriangularSuperior
  rw [List.range_eq_range' m.filas, bind_ok hok]
  refine ⟨_, _, rfl, ?_⟩
  intro r c hcr hrF
  exact hinv c (by omega) r hcr hrF

/-- Witness for C4 at the singular square matrix `[[1,2],[2,4]]`. -/
theorem claim_c4_w :
    ∃ t b, Matriz.hacerTriangularSuperior ⟨false, 2, 2, [[1,2],[2,4]]⟩ = .ok (t, b) ∧
      ∀ r c, c < r → r < 2 → entrada t.valores r c = 0 :=
  claim_c4 ⟨false, 2, 2, [[1,2],[2,4]]⟩ (by decide) rfl

lemma parity_succ (n : Nat) : (!decide (n % 2 = 1)) = decide ((n + 1) % 2 = 1) := by
  rcases Nat.mod_two_eq_zero_or_one n with h | h <;> simp [Nat.add_mod, h]

lemma triPaso_conteo_rel (F C i : Nat) (vals : List (List ℚ)) (n : Nat) :
    triPaso F C (vals, decide (n % 2 = 1)) i =
      (triPasoConteo F C (vals, n) i).map (fun p => (p.1, decide (p.2 % 2 = 1))) := by
  unfold triPaso triPasoConteo
  dsimp only
  rcases hp : pivotMax vals i (List.range' i (F - i)) with e | maxF
  · rfl
  simp only [ok_bind]
  rcases hv : pyIdx2 vals maxF i with e | pv
  · rfl
  simp only [ok_bind]
  by_cases hpv : pv = 0
  · rw [if_pos hpv, if_pos hpv]
    rfl
  rw [if_neg hpv, if_neg hpv]
  by_cases hmi : maxF ≠ i
  · simp only [if_pos hmi]
    rcases hs : swapFilas vals i maxF with e | vals1
    · rfl
    simp only [ok_bind]
    rcases he : foldE (fun v j => elimPaso i C v j) vals1
        (List.range' (i + 1) (F - (i + 1))) with e | vals3
    · rfl
    simp only [ok_bind]
    simp [Except.map, parity_succ]
  · simp only [if_neg hmi]
    rcases he : foldE (fun v j => elimPaso i C v j) vals
        (List.range' (i + 1) (F - (i + 1))) with e | vals3
    · rfl
    simp only [ok_bind]
    rfl

lemma triFold_conteo_rel (F C : Nat) :
    ∀ (l : List Nat) (vals : List (List ℚ)) (n : Nat),
      foldE (triPaso F C) (vals, decide (n % 2 = 1)) l =
        (foldE (triPasoConteo F C) (vals, n) l).map
          (fun p => (p.1, decide (p.2 % 2 = 1))) := by
  intro l
  induction l with
  | nil => intro vals n; rfl
  | cons x xs ih =>
    intro vals n
    rw [foldE_cons, foldE_cons]
    rcases hs : triPasoConteo F C (vals, n) x with e | p
    · have hL : triPaso F C (vals, decide (n % 2 = 1)) x = .error e := by
        rw [triPaso_conteo_rel, hs]
        rfl
      rw [bind_err hL]
      rfl
    · obtain ⟨vals1, n1⟩ := p
      have hL : triPaso F C (vals, decide (n % 2 = 1)) x = .ok (vals1, decide (n1 % 2 = 1)) := by
        rw [triPaso_conteo_rel, hs]
        rfl
      rw [bind_ok hL]
      exact ih vals1 n1

/-- Claim C5: the boolean returned by `hacer_triangular_superior` is `true`
iff the number of row interchanges performed by the run is odd (it equals
the swap count mod 2, with agreement also on every error case); and on
`A = [[1,2],[3,4]]` partial pivoting swaps row 1 (`|3| > |1|`) into
position 0, the returned flag is `true`, and the diagonal product of the
returned triangular matrix times `-1` equals the determinant `-2`. -/
theorem claim_c5 :
    (∀ m : Matriz, m.hacerTriangularSuperior =
      m.hacerTriangularSuperiorConteo.map (fun p => (p.1, decide (p.2 % 2 = 1)))) ∧
    (∃ t, Matriz.hacerTriangularSuperior ⟨false, 2, 2, [[1,2],[3,4]]⟩ = .ok (t, true) ∧
      entrada t.valores 0 0 * entrada t.valores 1 1 * (-1) = -2) := by
  constructor
  · intro m
    have hrel := triFold_conteo_rel m.filas m.columnas (List.range m.filas) m.valores 0
    unfold Matriz.hacerTriangularSuperior Matriz.hacerTriangularSuperiorConteo
    rcases hs : foldE (triPasoConteo m.filas m.columnas) (m.valores, 0) (List.range m.filas)
      with e | p
    · rw [hs] at hrel
      have hrel2 : foldE (triPaso m.filas m.columnas) (m.valores, false)
          (List.range m.filas) = .error e := hrel
      rw [bind_err hrel2]
      rfl
    · obtain ⟨v, k⟩ := p
      rw [hs] at hrel
      have hrel2 : foldE (triPaso m.filas m.columnas) (m.valores, false)
          (List.range m.filas) = .ok (v, decide (k % 2 = 1)) := hrel
      rw [bind_ok hrel2]
      rfl
  · refine ⟨⟨false, 2, 2, [[3,4],[0,2/3]]⟩, ?_, by norm_num [entrada]⟩
    have habs : |(1:ℚ)| < |3| := by
      rw [abs_one, abs_of_pos (by norm_num : (0:ℚ) < 3)]
      norm_num
    norm_num [Matriz.hacerTriangularSuperior, foldE, triPaso, pivotMax, pivotMaxGo,
      pyIdx2, pyIdx, swapFilas, elimPaso, elimFila, elimEntrada, pySet2, entrada,
      List.range_succ, List.range', ok_bind, err_bind, habs]
